import Mathlib

/-!
Verification of the conf package (configuration-file parser and
multi-dialect command-line option parser) against its specification.

The development shallowly embeds the Go sources:
  - the configuration-file parser and the shared Var/Value model
    (conf.go, given as src/unnamed/part_003);
  - the command-line parser (src/getopt.go);
  - the extended FlagError of the revision kept in src/unnamed/part_001
    (the one carrying a separate Long field).

Go strings are modelled as lists of Unicode scalar values (List Char);
the byte-level view only differs on invalid UTF-8 input, which no claim
exercises, and on the raw bytes produced by octal and hex escapes at or
above 0x80, which are represented here by the code point of the byte.
Mutation of the variables pointed to by a Var is made explicit: a Value
is a function from the raw string to either an error or the new stored
contents, and each Var carries the stored contents of the Go variable
its Val handle mutates.  Setter invocations are additionally logged in a
trace, so that theorems can state which calls were and were not made.
-/

namespace Conf

/-- Go strings, modelled as sequences of Unicode scalar values. -/
abbrev Str := List Char

/-- The error values of the package (errors.New constants of conf.go and
getopt.go), plus a constructor for errors returned by custom setters. -/
inductive Err where
  | errSyntax
  | errLineTooLong
  | errReqNotSet
  | errAlreadyDef
  | errUnknownVar
  | errIllOpt
  | errNoArg
  | errEndJunk
  | custom (msg : String)
deriving DecidableEq

/-- The message text of each error, as in the Go sources. -/
def Err.message : Err → String
  | .errSyntax => "syntax error"
  | .errLineTooLong => "line too long"
  | .errReqNotSet => "required but not set"
  | .errAlreadyDef => "already defined"
  | .errUnknownVar => "unknown variable"
  | .errIllOpt => "illegal option"
  | .errNoArg => "option requires an argument"
  | .errEndJunk => "junk at end of option"
  | .custom m => m

/-- Embeds unicode.IsSpace from the Go standard library (the White_Space
property), used by eatSpace via strings.TrimLeftFunc. -/
def goIsSpace (c : Char) : Bool :=
  let n := c.toNat
  (9 ≤ n && n ≤ 13) || n == 32 || n == 133 || n == 160 || n == 0x1680 ||
  (0x2000 ≤ n && n ≤ 0x200A) || n == 0x2028 || n == 0x2029 ||
  n == 0x202F || n == 0x205F || n == 0x3000

/-- Embeds the Unicode separator class Z (categories Zs, Zl, Zp), the
class written pZ in the token regexps. -/
def isClassZ (c : Char) : Bool :=
  let n := c.toNat
  n == 32 || n == 160 || n == 0x1680 ||
  (0x2000 ≤ n && n ≤ 0x200A) || n == 0x2028 || n == 0x2029 ||
  n == 0x202F || n == 0x205F || n == 0x3000

/-- Embeds the Unicode other class C (categories Cc, Cf, Co, Cs), the
class written pC in the token regexps.  The Cf ranges follow the Unicode
tables shipped with Go. -/
def isClassC (c : Char) : Bool :=
  let n := c.toNat
  n ≤ 0x1F || (0x7F ≤ n && n ≤ 0x9F) ||
  n == 0xAD || (0x600 ≤ n && n ≤ 0x605) || n == 0x61C || n == 0x6DD ||
  n == 0x70F || n == 0x8E2 || n == 0x180E ||
  (0x200B ≤ n && n ≤ 0x200F) || (0x202A ≤ n && n ≤ 0x202E) ||
  (0x2060 ≤ n && n ≤ 0x2064) || (0x2066 ≤ n && n ≤ 0x206F) ||
  n == 0xFEFF || (0xFFF9 ≤ n && n ≤ 0xFFFB) ||
  n == 0x110BD || n == 0x110CD || (0x13430 ≤ n && n ≤ 0x13438) ||
  (0x1BCA0 ≤ n && n ≤ 0x1BCA3) || (0x1D173 ≤ n && n ≤ 0x1D17A) ||
  n == 0xE0001 || (0xE0020 ≤ n && n ≤ 0xE007F) ||
  (0xD800 ≤ n && n ≤ 0xDFFF) || (0xE000 ≤ n && n ≤ 0xF8FF) ||
  (0xF0000 ≤ n && n ≤ 0xFFFFD) || (0x100000 ≤ n && n ≤ 0x10FFFD)

/-- First character of an identifier: ASCII letter, dash or underscore
(the first character class of identRE). -/
def identAlpha (c : Char) : Bool :=
  let n := c.toNat
  (65 ≤ n && n ≤ 90) || (97 ≤ n && n ≤ 122) || n == 45 || n == 95

/-- Subsequent identifier characters additionally allow ASCII digits
(the second character class of identRE). -/
def identAlnum (c : Char) : Bool :=
  identAlpha c || (48 ≤ c.toNat && c.toNat ≤ 57)

/-- Characters of a plain (unquoted) value: everything except the class
Z, the class C and the five literals excluded by plainRE. -/
def plainChar (c : Char) : Bool :=
  !isClassZ c && !isClassC c &&
  c != '"' && c != '#' && c != '\'' && c != '=' && c != '\\'

/-- A Value is the capability to take a raw, already-unquoted string and
either fail or produce the new stored contents of the underlying
variable (the Set method of the Value interface, with the mutation of
the pointed-to variable made explicit in the return value). -/
structure Value where
  set : Str → Except Err Str

instance : Inhabited Value := ⟨⟨fun _ => .error .errSyntax⟩⟩

/-- StringValue: Set stores the raw string unchanged. -/
def StringValue : Value := ⟨fun s => .ok s⟩

/-- The Kind tag of a Var (HasArg is the Go zero value). -/
inductive Kind where
  | hasArg
  | noArg
  | lineArg
deriving DecidableEq

/-- The Var descriptor of conf.go.  The stored field models the contents
of the Go variable that the Val handle mutates; it is not a field of the
Go struct but the state behind its Val pointer. -/
structure Var where
  flag : Char := Char.ofNat 0
  name : Str := []
  val : Value := StringValue
  kind : Kind := .hasArg
  required : Bool := false
  set : Bool := false
  flagSet : Bool := false
  stored : Str := []

instance : Inhabited Var := ⟨{}⟩

/-- ParseError of conf.go: filename, 1-based line (0 for the required
check), identifier, raw value text, and the underlying error. -/
structure ParseError where
  file : String
  line : Nat
  ident : Str
  value : Str
  err : Err

/-- The Error method of ParseError: File:[Line:][ Ident:] Err and a
final newline, with Line omitted when 0 and Ident omitted when empty
(fmt.Sprintf of conf.go). -/
def ParseError.render (p : ParseError) : String :=
  let line := if p.line != 0 then toString p.line ++ ":" else ""
  let ident := if p.ident != [] then " " ++ String.mk p.ident ++ ":" else ""
  p.file ++ ":" ++ line ++ ident ++ " " ++ p.err.message ++ "\n"

/-- Skip leading white space: strings.TrimLeftFunc with unicode.IsSpace
(eatSpace of conf.go). -/
def eatSpace (s : Str) : Str := s.dropWhile goIsSpace

/-- The anchored identRE match: longest prefix made of an identAlpha
character followed by identAlnum characters; empty when there is no
match (regexp.FindString returns the empty string then). -/
def identTake (s : Str) : Str :=
  match s with
  | [] => []
  | c :: rest => if identAlpha c then c :: rest.takeWhile identAlnum else []

/-- The anchored plainRE match: longest nonempty prefix of plainChar
characters; empty when there is no match. -/
def plainTake (s : Str) : Str := s.takeWhile plainChar

/-- Body scanner of the anchored quotedRE match: after the opening
quote, each unit is either a single character outside class C that is
neither a quote nor a backslash, or a backslash followed by any
character outside class C; an unescaped quote closes the value.
Returns the consumed units and the rest, or none when the regexp does
not match. -/
def quotedBody : Str → Option (Str × Str)
  | [] => none
  | c :: rest =>
    if c = '"' then some ([], rest)
    else if c = '\\' then
      match rest with
      | [] => none
      | d :: rest' =>
        if isClassC d then none
        else (fun (u, r) => (c :: d :: u, r)) <$> quotedBody rest'
    else if isClassC c then none
    else (fun (u, r) => (c :: u, r)) <$> quotedBody rest

/-- The anchored quotedRE match at the start of s, or the empty string
when the regexp does not match there. -/
def quotedFind (s : Str) : Str :=
  match s with
  | '"' :: rest =>
    match quotedBody rest with
    | some (u, _) => '"' :: (u ++ ['"'])
    | none => []
  | _ => []

/-- Value of an ASCII hex digit (unhex of strconv). -/
def unhex (c : Char) : Option Nat :=
  let n := c.toNat
  if 48 ≤ n ∧ n ≤ 57 then some (n - 48)
  else if 97 ≤ n ∧ n ≤ 102 then some (n - 87)
  else if 65 ≤ n ∧ n ≤ 70 then some (n - 55)
  else none

/-- utf8.AppendRune on a decoded escape value: an invalid scalar value
(a surrogate) is replaced by the replacement character U+FFFD. -/
def appRune (v : Nat) : Char :=
  if v < 0xD800 ∨ (0xE000 ≤ v ∧ v < 0x110000) then Char.ofNat v else '�'

/-- strconv.UnquoteChar specialised to double-quoted input: an
unescaped quote is a syntax error, a backslash starts one of the
escapes a b f n r t v, a quote, a backslash, exactly three octal digits
(at most 255), x with two hex digits, u with four or U with eight (at
most the maximal rune, surrogates replaced as utf8.AppendRune does);
any other character stands for itself.  Octal and x escapes at or above
0x80 produce raw bytes in Go and are represented here by the code point
of the byte. -/
def unquoteChar : Str → Option (Char × Str)
  | [] => none
  | c :: rest =>
    if c = '"' then none
    else if c ≠ '\\' then some (c, rest)
    else match rest with
      | [] => none
      | d :: r =>
        if d = 'a' then some (Char.ofNat 7, r)
        else if d = 'b' then some (Char.ofNat 8, r)
        else if d = 'f' then some (Char.ofNat 12, r)
        else if d = 'n' then some (Char.ofNat 10, r)
        else if d = 'r' then some (Char.ofNat 13, r)
        else if d = 't' then some (Char.ofNat 9, r)
        else if d = 'v' then some (Char.ofNat 11, r)
        else if d = '"' then some ('"', r)
        else if d = '\\' then some ('\\', r)
        else if d = 'x' then
          match r with
          | d1 :: d2 :: r' =>
            match unhex d1, unhex d2 with
            | some v1, some v2 => some (Char.ofNat (v1 * 16 + v2), r')
            | _, _ => none
          | _ => none
        else if d = 'u' then
          match r with
          | d1 :: d2 :: d3 :: d4 :: r' =>
            match unhex d1, unhex d2, unhex d3, unhex d4 with
            | some v1, some v2, some v3, some v4 =>
              some (appRune (((v1 * 16 + v2) * 16 + v3) * 16 + v4), r')
            | _, _, _, _ => none
          | _ => none
        else if d = 'U' then
          match r with
          | d1 :: d2 :: d3 :: d4 :: d5 :: d6 :: d7 :: d8 :: r' =>
            match unhex d1, unhex d2, unhex d3, unhex d4,
                unhex d5, unhex d6, unhex d7, unhex d8 with
            | some v1, some v2, some v3, some v4,
              some v5, some v6, some v7, some v8 =>
              let v := ((((((v1 * 16 + v2) * 16 + v3) * 16 + v4) * 16 +
                v5) * 16 + v6) * 16 + v7) * 16 + v8
              if v > 0x10FFFF then none else some (appRune v, r')
            | _, _, _, _, _, _, _, _ => none
          | _ => none
        else if 48 ≤ d.toNat ∧ d.toNat ≤ 55 then
          match r with
          | e1 :: e2 :: r' =>
            if (48 ≤ e1.toNat ∧ e1.toNat ≤ 55) ∧
                (48 ≤ e2.toNat ∧ e2.toNat ≤ 55) then
              let v := (d.toNat - 48) * 64 + (e1.toNat - 48) * 8 +
                (e2.toNat - 48)
              if v > 255 then none else some (Char.ofNat v, r')
            else none
          | _ => none
        else none

/-- The Unquote read loop: repeat unquoteChar until the contents are
exhausted.  The fuel only bounds the recursion: every unquoteChar step
consumes at least one character, so fuel equal to the length of the
contents never runs out. -/
def unquoteRun : Nat → Str → Option Str
  | _, [] => some []
  | 0, _ :: _ => none
  | fuel + 1, c :: rest =>
    match unquoteChar (c :: rest) with
    | none => none
    | some (ch, r) => (ch :: ·) <$> unquoteRun fuel r

/-- strconv.Unquote restricted to double-quoted input, the only shape
parseLine ever feeds it (quotedRE matches start with a quote, and the
empty string is rejected by the length check). -/
def unquote (s : Str) : Option Str :=
  if s.length < 2 then none
  else if '\n' ∈ s then none
  else
    match s with
    | '"' :: rest =>
      if rest.getLast? = some '"' then
        unquoteRun rest.dropLast.length rest.dropLast
      else none
    | _ => none

/-- The parser state of conf.go (the bufio.Reader is replaced by the
explicit list of lines handed to runLines).  The trace field logs every
setter invocation as a pair of the index of the Var in the registry and
the raw argument passed to Set; it is an observer added for the
verification, not state of the Go struct. -/
structure PState where
  file : String
  line : Nat
  ident : Str
  value : Str
  vars : List Var
  trace : List (Nat × Str)

/-- The search-and-set loop of setValue: walk the registry, and at the
first Var whose Name equals the identifier either fail (already set
from the file), skip the setter but record the file marker (set from
the command line), or invoke the setter.  Returns the updated registry,
the setter invocation if one was made, and the error if any. -/
def setValueAux (ident : Str) (value : Str) (file : String) (line : Nat)
    (pvalue : Str) (idx : Nat) :
    List Var → List Var × Option (Nat × Str) × Option ParseError
  | [] => ([], none, some ⟨file, line, ident, pvalue, .errUnknownVar⟩)
  | v :: vs =>
    if v.name = ident then
      if v.set then
        (v :: vs, none, some ⟨file, line, ident, pvalue, .errAlreadyDef⟩)
      else if v.flagSet then
        ({v with set := true} :: vs, none, none)
      else
        match v.val.set value with
        | .error e =>
          (v :: vs, some (idx, value), some ⟨file, line, ident, pvalue, e⟩)
        | .ok s =>
          ({v with set := true, stored := s} :: vs, some (idx, value), none)
    else
      let (vs', t, r) := setValueAux ident value file line pvalue (idx + 1) vs
      (v :: vs', t, r)

/-- setValue of conf.go, on the explicit parser state. -/
def setValue (p : PState) (value : Str) : PState × Option ParseError :=
  let (vars', t, r) :=
    setValueAux p.ident value p.file p.line p.value 0 p.vars
  ({p with vars := vars', trace := p.trace ++ t.toList}, r)

/-- parseLine of conf.go: skip blank and comment lines, read the
identifier, the equals sign and the value (plain first, quoted
otherwise), reject trailing junk, and dispatch to setValue. -/
def parseLine (p : PState) (line0 : Str) : PState × Option ParseError :=
  let line := eatSpace line0
  if line = [] ∨ line.head? = some '#' then (p, none)
  else
    let id := identTake line
    let p := {p with ident := id}
    let line1 := eatSpace (line.drop id.length)
    if id = [] ∨ line1 = [] ∨ line1.head? ≠ some '=' then
      (p, some ⟨p.file, p.line, p.ident, p.value, .errSyntax⟩)
    else
      let line2 := eatSpace (line1.drop 1)
      let pv := plainTake line2
      let (pvalue, unq?) :=
        if pv = [] then
          let qv := quotedFind line2
          (qv, unquote qv)
        else (pv, some pv)
      let p := {p with value := pvalue}
      match unq? with
      | none => (p, some ⟨p.file, p.line, p.ident, p.value, .errSyntax⟩)
      | some unq =>
        let line3 := eatSpace (line2.drop pvalue.length)
        if line3 ≠ [] ∧ line3.head? ≠ some '#' then
          (p, some ⟨p.file, p.line, p.ident, p.value, .errSyntax⟩)
        else setValue p unq

/-- UTF-8 byte size of a line, for the line-length check that models
bufio.ReadLine reporting a prefix on its default 4096-byte buffer. -/
def utf8Len (s : Str) : Nat :=
  (s.map fun c =>
    if c.toNat < 0x80 then 1
    else if c.toNat < 0x800 then 2
    else if c.toNat < 0x10000 then 3
    else 4).sum

/-- The read loop of Parse: count the line, reset the identifier and
value context, fail on an overlong line, parse the line, and stop at
the first error. -/
def runLines (p : PState) : List Str → PState × Option ParseError
  | [] => (p, none)
  | l :: ls =>
    let p := {p with line := p.line + 1, ident := [], value := []}
    if utf8Len l ≥ 4096 then
      (p, some ⟨p.file, p.line, p.ident, p.value, .errLineTooLong⟩)
    else
      match parseLine p l with
      | (p', none) => runLines p' ls
      | (p', some e) => (p', some e)

/-- The required-variable walk after end of stream: the first Var with
Required true and no file-origin set marker yields the error. -/
def requiredErr (file : String) : List Var → Option ParseError
  | [] => none
  | v :: vs =>
    if v.required ∧ ¬v.set then some ⟨file, 0, v.name, [], .errReqNotSet⟩
    else requiredErr file vs

/-- Parse of conf.go: empty filename becomes stdin, the stream is
consumed line by line stopping at the first error, and afterwards the
required check walks the registry.  The returned state carries the
registry as mutated so far and the setter-invocation trace. -/
def Parse (file : String) (lines : List Str) (vars : List Var) :
    PState × Option ParseError :=
  let fn := if file = "" then "stdin" else file
  match runLines ⟨fn, 0, [], [], vars, []⟩ lines with
  | (p, some e) => (p, some e)
  | (p, none) => (p, requiredErr fn p.vars)

/-- FlagError of src/getopt.go: flag rune, value text (long names are
passed through this field by newError) and the underlying error. -/
structure FlagError where
  flag : Char
  value : Str
  err : Err
deriving DecidableEq

/-- The Error method of the FlagError of src/getopt.go: Err -- Value if
Value is neither empty nor the literal true, otherwise Err -- Flag. -/
def FlagError.render (e : FlagError) : String :=
  if e.value ≠ [] ∧ e.value ≠ "true".data then
    e.err.message ++ " -- " ++ String.mk e.value
  else
    e.err.message ++ " -- " ++ String.mk [e.flag]

/-- FlagError of the extended getopt revision kept in
src/unnamed/part_001, which carries the long flag separately. -/
structure FlagErrorL where
  flag : Char
  long : Str
  value : Str
  err : Err
deriving DecidableEq

/-- The Error method of the extended FlagError: Err -- Value, or
Err -- Long when the value is empty, or Err -- Flag when both are. -/
def FlagErrorL.render (e : FlagErrorL) : String :=
  let s :=
    if e.value ≠ [] then e.value
    else if e.long ≠ [] then e.long
    else [e.flag]
  e.err.message ++ " -- " ++ String.mk s

/-- The three dialects of doGetOpt (the flavour constants). -/
inductive Flavour where
  | short
  | xLong
  | gnuLong
deriving DecidableEq

/-- Classification of one argument by nextArg. -/
inductive ArgKind where
  | shortFlag
  | longFlag
  | gnuLongFlag
  | falseFlag
  | endArg
  | endArgSkip
deriving DecidableEq

/-- nextArg of src/getopt.go: classify one argument for the selected
dialect and strip its leading dash or plus. -/
def nextArg (arg : Str) (flav : Flavour) : ArgKind × Str :=
  if arg.length ≤ 1 then (.endArg, [])
  else
    match arg with
    | [] => (.endArg, [])
    | c :: rest =>
      if c = '-' then
        if rest.head? = some '-' ∧ arg.length = 2 then (.endArgSkip, [])
        else if rest.head? = some '-' ∧ flav = .gnuLong then
          (.gnuLongFlag, arg.drop 2)
        else if flav = .xLong then (.longFlag, rest)
        else (.shortFlag, rest)
      else if c = '+' then
        if flav = .xLong then (.falseFlag, rest) else (.endArg, [])
      else (.endArg, [])

/-- nextFlag of src/getopt.go: pop one short flag rune (the first rune,
the replacement character standing for a decoding error), split a GNU
long flag at the first equals sign, or take the whole rest as the long
name. -/
def nextFlag (this : Str) (k : ArgKind) : Char × Str × Str :=
  match k with
  | .shortFlag =>
    match this with
    | c :: rest => (c, [], rest)
    | [] => ('�', [], [])
  | .gnuLongFlag =>
    if this.contains '=' then
      ('=', this.takeWhile (· ≠ '='), (this.dropWhile (· ≠ '=')).drop 1)
    else (Char.ofNat 0, this, [])
  | _ => (Char.ofNat 0, this, [])

/-- The scan of findFlag, returning the index of the first matching Var
(by Flag for short flags, by Name otherwise). -/
def findIdxFrom (p : Var → Bool) (i : Nat) : List Var → Option Nat
  | [] => none
  | v :: vs => if p v then some i else findIdxFrom p (i + 1) vs

/-- findFlag of src/getopt.go, as an index into the registry. -/
def findFlagIdx (flag : Char) (long : Str) (k : ArgKind)
    (vars : List Var) : Option Nat :=
  if k = .shortFlag then findIdxFrom (fun v => v.flag == flag) 0 vars
  else findIdxFrom (fun v => v.name == long) 0 vars

/-- The state threaded through doGetOpt: the remaining argument vector
(the global Args), the registry, and the observer trace of setter
invocations (index of the Var and raw argument). -/
structure GOState where
  args : List Str
  vars : List Var
  trace : List (Nat × Str)

/-- One setter invocation inside doGetOpt: log the call, run Set, and
on success store the result and the command-line set marker. -/
def callSet (st : GOState) (i : Nat) (flag : Char) (p : Str) :
    GOState × Option FlagError :=
  let v := st.vars[i]?.getD default
  let st := {st with trace := st.trace ++ [(i, p)]}
  match v.val.set p with
  | .error e => (st, some ⟨flag, p, e⟩)
  | .ok s =>
    ({st with vars := st.vars.set i {v with stored := s, flagSet := true}},
      none)

/-- The inner flag-cluster loop of doGetOpt of src/getopt.go.  The fuel
only bounds the recursion; every iteration strictly shortens the
cluster, so fuel equal to the cluster length never runs out. -/
def procCluster : Nat → ArgKind → Str → GOState → GOState × Option FlagError
  | 0, _, _, st => (st, none)
  | fuel + 1, k, this, st =>
    if this = [] then (st, none)
    else
      let (flag, long, this') := nextFlag this k
      if flag = '�' then (st, some ⟨flag, long, .errSyntax⟩)
      else
        match findFlagIdx flag long k st.vars with
        | none => (st, some ⟨flag, long, .errIllOpt⟩)
        | some i =>
          let v := st.vars[i]?.getD default
          if k = .falseFlag then
            if v.kind ≠ .noArg then (st, some ⟨flag, long, .errIllOpt⟩)
            else
              match callSet st i flag "false".data with
              | (st', none) => procCluster fuel k this' st'
              | r => r
          else if v.kind = .noArg then
            if k = .gnuLongFlag ∧ flag = '=' then
              (st, some ⟨Char.ofNat 0, this', .errEndJunk⟩)
            else
              match callSet st i flag "true".data with
              | (st', none) => procCluster fuel k this' st'
              | r => r
          else if v.kind = .lineArg then
            if this' ≠ [] then (st, some ⟨Char.ofNat 0, this', .errEndJunk⟩)
            else callSet st i flag []
          else
            if this' ≠ [] then
              match callSet st i flag this' with
              | (st', none) => procCluster fuel k [] st'
              | r => r
            else if k = .gnuLongFlag ∧ flag = '=' then
              match callSet st i flag [] with
              | (st', none) => procCluster fuel k [] st'
              | r => r
            else
              match st.args with
              | a :: rest =>
                match callSet {st with args := rest} i flag a with
                | (st', none) => procCluster fuel k [] st'
                | r => r
              | [] => (st, some ⟨flag, [], .errNoArg⟩)

/-- The outer argument loop of doGetOpt of src/getopt.go.  The fuel
only bounds the recursion; every iteration consumes at least one
argument, so fuel exceeding the vector length never runs out. -/
def doGetOptLoop : Nat → Flavour → GOState → GOState × Option FlagError
  | 0, _, st => (st, none)
  | fuel + 1, flav, st =>
    match st.args with
    | [] => (st, none)
    | a :: rest =>
      match nextArg a flav with
      | (.endArg, _) => (st, none)
      | (.endArgSkip, _) => ({st with args := rest}, none)
      | (k, this) =>
        match procCluster this.length k this {st with args := rest} with
        | (st', none) => doGetOptLoop fuel flav st'
        | r => r

/-- doGetOpt of src/getopt.go: argv models os.Args with the program
name already removed; the final args field of the state is the residual
Args array. -/
def doGetOpt (argv : List Str) (vars : List Var) (flav : Flavour) :
    GOState × Option FlagError :=
  doGetOptLoop (argv.length + 1) flav ⟨argv, vars, []⟩

/-- GetOpt: the traditional Unix dialect. -/
def GetOpt (argv : List Str) (vars : List Var) : GOState × Option FlagError :=
  doGetOpt argv vars .short

/-- GetOptLong: the GNU dialect with double-dash long options. -/
def GetOptLong (argv : List Str) (vars : List Var) :
    GOState × Option FlagError :=
  doGetOpt argv vars .gnuLong

/-- GetOptLongOnly: the X11 dialect with long-only flags and
plus-negation. -/
def GetOptLongOnly (argv : List Str) (vars : List Var) :
    GOState × Option FlagError :=
  doGetOpt argv vars .xLong

/-- Well-formed identifier: the shape accepted in full by identRE. -/
def identOK (s : Str) : Bool :=
  match s with
  | [] => false
  | c :: cs => identAlpha c && cs.all identAlnum

/-- Well-formed plain value: the shape accepted in full by plainRE. -/
def plainOK (s : Str) : Bool := !s.isEmpty && s.all plainChar

theorem plainChar_not_space {c : Char} (h : plainChar c = true) :
    goIsSpace c = false := by
  simp only [plainChar, Bool.and_eq_true, Bool.not_eq_true'] at h
  obtain ⟨⟨⟨⟨⟨⟨hz, hc⟩, -⟩, -⟩, -⟩, -⟩, -⟩ := h
  simp only [isClassZ, Bool.or_eq_true, Bool.and_eq_true, beq_iff_eq,
    decide_eq_true_eq, Bool.or_eq_false_iff, Bool.and_eq_false_iff,
    beq_eq_false_iff_ne, ne_eq, decide_eq_false_iff_not, not_le] at hz
  simp only [isClassC, Bool.or_eq_true, Bool.and_eq_true, beq_iff_eq,
    decide_eq_true_eq, Bool.or_eq_false_iff, Bool.and_eq_false_iff,
    beq_eq_false_iff_ne, ne_eq, decide_eq_false_iff_not, not_le] at hc
  simp only [goIsSpace, Bool.or_eq_false_iff, Bool.and_eq_false_iff,
    beq_eq_false_iff_ne, ne_eq, decide_eq_false_iff_not, not_le]
  omega

theorem identAlpha_not_space {c : Char} (h : identAlpha c = true) :
    goIsSpace c = false := by
  simp only [identAlpha, Bool.or_eq_true, Bool.and_eq_true, beq_iff_eq,
    decide_eq_true_eq] at h
  simp only [goIsSpace, Bool.or_eq_false_iff, Bool.and_eq_false_iff,
    beq_eq_false_iff_ne, ne_eq, decide_eq_false_iff_not, not_le]
  have : c.toNat ≠ 32 ∧ c.toNat ≠ 133 := by omega
  omega

theorem identAlpha_ne_hash {c : Char} (h : identAlpha c = true) : c ≠ '#' := by
  intro hc
  subst hc
  simp [identAlpha] at h

theorem takeWhile_all {p : Char → Bool} {xs : Str}
    (h : ∀ c ∈ xs, p c = true) : xs.takeWhile p = xs := by
  induction xs with
  | nil => rfl
  | cons c cs ih =>
    simp only [List.takeWhile_cons, h c (by simp)]
    simp [ih fun d hd => h d (by simp [hd])]

/-- Scanning an identifier followed by an equals sign and a value stops
exactly at the equals sign. -/
theorem identTake_assign {id : Str} (hid : identOK id = true) (w : Str) :
    identTake (id ++ '=' :: w) = id := by
  match id, hid with
  | c :: cs, hid =>
    simp only [identOK, Bool.and_eq_true, List.all_eq_true] at hid
    obtain ⟨hc, hcs⟩ := hid
    simp only [List.cons_append, identTake, hc, if_true]
    rw [List.takeWhile_append_of_pos hcs]
    simp [List.takeWhile_cons, identAlnum, identAlpha]

theorem eatSpace_cons {c : Char} {cs : Str} (h : goIsSpace c = false) :
    eatSpace (c :: cs) = c :: cs := by
  simp [eatSpace, List.dropWhile_cons, h]

theorem setValueAux_already {ident value : Str} {file : String} {line : Nat}
    {pvalue : Str} {idx : Nat} {pre : List Var} {v : Var} {post : List Var}
    (hpre : ∀ w ∈ pre, w.name ≠ ident) (hv : v.name = ident)
    (hset : v.set = true) :
    setValueAux ident value file line pvalue idx (pre ++ v :: post) =
      (pre ++ v :: post, none,
        some ⟨file, line, ident, pvalue, .errAlreadyDef⟩) := by
  induction pre generalizing idx with
  | nil => simp [setValueAux, hv, hset]
  | cons w pre ih =>
    simp only [List.cons_append, setValueAux, hpre w (by simp), if_false,
      List.append_eq]
    rw [ih fun u hu => hpre u (by simp [hu])]

theorem setValueAux_skip {ident value : Str} {file : String} {line : Nat}
    {pvalue : Str} {idx : Nat} {pre : List Var} {v : Var} {post : List Var}
    (hpre : ∀ w ∈ pre, w.name ≠ ident) (hv : v.name = ident)
    (hset : v.set = false) (hfs : v.flagSet = true) :
    setValueAux ident value file line pvalue idx (pre ++ v :: post) =
      (pre ++ {v with set := true} :: post, none, none) := by
  induction pre generalizing idx with
  | nil => simp [setValueAux, hv, hset, hfs]
  | cons w pre ih =>
    simp only [List.cons_append, setValueAux, hpre w (by simp), if_false,
      List.append_eq]
    rw [ih fun u hu => hpre u (by simp [hu])]

theorem setValueAux_ok {ident value : Str} {file : String} {line : Nat}
    {pvalue : Str} {idx : Nat} {pre : List Var} {v : Var} {post : List Var}
    {s : Str} (hpre : ∀ w ∈ pre, w.name ≠ ident) (hv : v.name = ident)
    (hset : v.set = false) (hfs : v.flagSet = false)
    (hok : v.val.set value = .ok s) :
    setValueAux ident value file line pvalue idx (pre ++ v :: post) =
      (pre ++ {v with set := true, stored := s} :: post,
        some (idx + pre.length, value), none) := by
  induction pre generalizing idx with
  | nil => simp [setValueAux, hv, hset, hfs, hok]
  | cons w pre ih =>
    simp only [List.cons_append, setValueAux, hpre w (by simp), if_false,
      List.append_eq]
    rw [ih fun u hu => hpre u (by simp [hu])]
    simp only [List.length_cons]
    have h : idx + 1 + pre.length = idx + (pre.length + 1) := by omega
    rw [h]

theorem setValueAux_err {ident value : Str} {file : String} {line : Nat}
    {pvalue : Str} {idx : Nat} {pre : List Var} {v : Var} {post : List Var}
    {e : Err} (hpre : ∀ w ∈ pre, w.name ≠ ident) (hv : v.name = ident)
    (hset : v.set = false) (hfs : v.flagSet = false)
    (herr : v.val.set value = .error e) :
    setValueAux ident value file line pvalue idx (pre ++ v :: post) =
      (pre ++ v :: post, some (idx + pre.length, value),
        some ⟨file, line, ident, pvalue, e⟩) := by
  induction pre generalizing idx with
  | nil => simp [setValueAux, hv, hset, hfs, herr]
  | cons w pre ih =>
    simp only [List.cons_append, setValueAux, hpre w (by simp), if_false,
      List.append_eq]
    rw [ih fun u hu => hpre u (by simp [hu])]
    simp only [List.length_cons]
    have h : idx + 1 + pre.length = idx + (pre.length + 1) := by omega
    rw [h]

theorem eatSpace_nil : eatSpace [] = [] := rfl

/-- parseLine on a well-formed plain assignment reduces to setValue with
the literal value text. -/
theorem parseLine_plain {p : PState} {id val : Str}
    (hid : identOK id = true) (hval : plainOK val = true) :
    parseLine p (id ++ '=' :: val) =
      setValue {p with ident := id, value := val} val := by
  match id, hid with
  | c :: cs, hid =>
    have hid' := hid
    simp only [identOK, Bool.and_eq_true, List.all_eq_true] at hid'
    obtain ⟨hc, -⟩ := hid'
    simp only [plainOK, Bool.and_eq_true, Bool.not_eq_true',
      List.isEmpty_eq_false_iff_exists_mem, List.all_eq_true] at hval
    obtain ⟨hne, hall⟩ := hval
    match val, hne with
    | v0 :: vs, _ =>
      have hv0 : plainChar v0 = true := hall v0 (by simp)
      have hch : c ≠ '#' := identAlpha_ne_hash hc
      have e1 : eatSpace (c :: (cs ++ '=' :: v0 :: vs)) =
          c :: (cs ++ '=' :: v0 :: vs) :=
        eatSpace_cons (identAlpha_not_space hc)
      have hkey : identTake (c :: (cs ++ '=' :: v0 :: vs)) = c :: cs := by
        have h := identTake_assign hid (v0 :: vs)
        simp only [List.cons_append] at h
        exact h
      have hdrop : List.drop (cs.length + 1) (c :: (cs ++ '=' :: v0 :: vs)) =
          '=' :: v0 :: vs := by
        have h := List.drop_left (c :: cs) ('=' :: v0 :: vs)
        simp only [List.cons_append, List.length_cons] at h
        exact h
      have e2 : eatSpace ('=' :: v0 :: vs) = '=' :: v0 :: vs :=
        eatSpace_cons (by decide)
      have e3 : eatSpace (v0 :: vs) = v0 :: vs :=
        eatSpace_cons (plainChar_not_space hv0)
      have htake : plainTake (v0 :: vs) = v0 :: vs := takeWhile_all hall
      simp only [parseLine, List.cons_append, e1, List.head?_cons,
        Option.some.injEq, hch, hkey, List.length_cons, hdrop, e2, e3,
        List.drop_one, List.tail_cons, htake, List.drop_length,
        List.cons_ne_nil, eatSpace_nil]
      simp [eatSpace]

theorem requiredErr_none {file : String} {vs : List Var}
    (h : ∀ w ∈ vs, w.required = true → w.set = true) :
    requiredErr file vs = none := by
  induction vs with
  | nil => rfl
  | cons w ws ih =>
    simp only [requiredErr]
    rw [if_neg fun hcond => hcond.2 (h w (by simp) hcond.1)]
    exact ih fun u hu => h u (by simp [hu])

theorem requiredErr_eq_find (file : String) (vs : List Var) :
    requiredErr file vs =
      (vs.find? fun v => v.required && !v.set).map
        fun v => ⟨file, 0, v.name, [], .errReqNotSet⟩ := by
  induction vs with
  | nil => rfl
  | cons w ws ih =>
    by_cases hc : w.required = true ∧ ¬w.set = true
    · simp only [requiredErr, if_pos hc]
      simp [List.find?_cons, hc.1,
        show (!w.set) = true by simp [Bool.not_eq_true', hc.2]]
    · simp only [requiredErr, if_neg hc]
      rw [ih]
      have : (w.required && !w.set) = false := by
        rcases Decidable.not_and_iff_or_not.mp hc with h1 | h1
        · simp [Bool.eq_false_iff.mpr h1]
        · simp [Decidable.not_not.mp h1]
      simp [List.find?_cons, this]

/-- C1 (counterexample): the claim fails as stated.  The registry has a
single Var named k that is already marked set-from-command-line
(flagSet true) and not set-from-file; the stream assigns k on both of
its lines.  The second line is an assignment to a Var marked flagSet,
yet Parse returns an already-defined error for that line instead of no
error, because the first (skipped) assignment already recorded the
file-origin marker. -/
theorem c1_counterexample :
    (Parse "f" ["k=a".data, "k=b".data]
      [{name := "k".data, flagSet := true, stored := "cli".data}]).2 =
      some ⟨"f", 2, "k".data, "b".data, .errAlreadyDef⟩ := by
  rfl

/-- C1 (amended): if a Var is already marked set-from-command-line and
is not yet marked set-from-file when the file parser encounters an
assignment to its name, then Parse returns no error for that line, the
setter is not called (the trace is empty and the stored contents are
unchanged), and the Var is marked set-from-file, so the required check
is satisfied for it.  The second occurrence of an assignment fails with
already defined even on a flagSet Var, hence the not-yet-set
hypothesis. -/
theorem c1_flagset_precedence (file : String) (id val : Str)
    (pre post : List Var) (v : Var)
    (hid : identOK id = true) (hval : plainOK val = true)
    (hlen : utf8Len (id ++ '=' :: val) < 4096)
    (hpre : ∀ w ∈ pre, w.name ≠ id) (hv : v.name = id)
    (hset : v.set = false) (hfs : v.flagSet = true)
    (hreq : ∀ w ∈ pre ++ post, w.required = true → w.set = true) :
    Parse file [id ++ '=' :: val] (pre ++ v :: post) =
      (⟨if file = "" then "stdin" else file, 1, id, val,
        pre ++ {v with set := true} :: post, []⟩, none) := by
  have hvv : v.name = id := hv
  unfold Parse
  simp only [runLines]
  rw [if_neg (by omega)]
  rw [parseLine_plain hid hval]
  unfold setValue
  rw [setValueAux_skip hpre hvv hset hfs]
  simp only [Option.toList_none, List.append_nil, runLines]
  rw [requiredErr_none]
  intro w hw
  rcases List.mem_append.mp hw with h | h
  · exact hreq w (List.mem_append.mpr (.inl h))
  · rcases List.mem_cons.mp h with rfl | h
    · intro
      rfl
    · exact hreq _ (List.mem_append.mpr (.inr h))

/-- C1 (witness): the amended theorem applied to a concrete registry
and stream. -/
theorem c1_witness :
    Parse "f" ["k=a".data]
      [{name := "k".data, flagSet := true, stored := "cli".data}] =
      (⟨"f", 1, "k".data, "a".data,
        [{name := "k".data, set := true, flagSet := true,
          stored := "cli".data}], []⟩, none) :=
  c1_flagset_precedence "f" "k".data "a".data [] []
    {name := "k".data, flagSet := true, stored := "cli".data}
    (by decide) (by decide) (by decide) (by simp) rfl rfl rfl (by simp)


/-- C2 (counterexample): the claim fails as stated.  The registry has a
single required Var named k already marked set-from-command-line
(flagSet true); the stream is empty.  The Var has a set marker from the
command-line origin, so by the claim no required-but-not-set error
should be produced, yet Parse returns one: the required check only
consults the file-origin marker. -/
theorem c2_counterexample :
    (Parse "f" []
        [{name := "k".data, required := true, flagSet := true}]).2 =
      some ⟨"f", 0, "k".data, [], .errReqNotSet⟩ ∧
    ({name := "k".data, required := true, flagSet := true} : Var).flagSet =
      true :=
  ⟨rfl, rfl⟩

/-- C2 (amended): after the entire stream has been consumed without an
earlier error, Parse fails with a required-but-not-set error carrying
the name of the first Var with Required true whose file-origin set
marker is false; a command-line marker alone does not satisfy the
check (it only suppresses the setter when the file also assigns the
name, which then records the file marker).  Any error on an earlier
line is reported instead. -/
theorem c2_required_check (file : String) (lines : List Str)
    (vars : List Var) :
    (∀ p e, runLines ⟨if file = "" then "stdin" else file, 0, [], [],
        vars, []⟩ lines = (p, some e) →
      Parse file lines vars = (p, some e)) ∧
    (∀ p, runLines ⟨if file = "" then "stdin" else file, 0, [], [],
        vars, []⟩ lines = (p, none) →
      Parse file lines vars =
        (p, (p.vars.find? fun v => v.required && !v.set).map
          fun v => ⟨if file = "" then "stdin" else file, 0, v.name, [],
            .errReqNotSet⟩)) := by
  constructor
  · intro p e h
    unfold Parse
    simp only [h]
  · intro p h
    unfold Parse
    simp only [h, requiredErr_eq_find]

/-- C2 (witness): the amended theorem applied to an empty stream and a
registry with one required Var set only from the command line. -/
theorem c2_witness :
    Parse "f" [] [{name := "k".data, required := true, flagSet := true}] =
      (⟨"f", 0, [], [],
        [{name := "k".data, required := true, flagSet := true}], []⟩,
        some ⟨"f", 0, "k".data, [], .errReqNotSet⟩) :=
  (c2_required_check "f" []
    [{name := "k".data, required := true, flagSet := true}]).2 _ rfl

/-- C3: a stream assigning the same identifier on two lines, the Var
carrying no command-line marker, makes Parse fail with already defined
on the second occurrence; the effect of the first setter call on the
underlying variable remains applied (the final stored contents are the
result of the first call, and the trace holds exactly that one call). -/
theorem c3_duplicate_assignment (file : String) (id a b sa : Str)
    (pre post : List Var) (v : Var)
    (hid : identOK id = true) (ha : plainOK a = true) (hb : plainOK b = true)
    (hlen1 : utf8Len (id ++ '=' :: a) < 4096)
    (hlen2 : utf8Len (id ++ '=' :: b) < 4096)
    (hpre : ∀ w ∈ pre, w.name ≠ id) (hv : v.name = id)
    (hset : v.set = false) (hfs : v.flagSet = false)
    (hok : v.val.set a = .ok sa) :
    Parse file [id ++ '=' :: a, id ++ '=' :: b] (pre ++ v :: post) =
      (⟨if file = "" then "stdin" else file, 2, id, b,
        pre ++ {v with set := true, stored := sa} :: post,
        [(pre.length, a)]⟩,
       some ⟨if file = "" then "stdin" else file, 2, id, b,
        .errAlreadyDef⟩) := by
  unfold Parse
  simp only [runLines]
  rw [if_neg (by omega)]
  rw [parseLine_plain hid ha]
  unfold setValue
  rw [setValueAux_ok hpre hv hset hfs hok]
  simp only [Nat.zero_add, Option.toList_some, List.nil_append]
  rw [if_neg (by omega)]
  rw [parseLine_plain hid hb]
  unfold setValue
  rw [setValueAux_already (v := {v with set := true, stored := sa})
    hpre (by simp [hv]) rfl]
  simp

/-- C3 (witness): the theorem applied to a concrete stream assigning k
twice over a string-valued Var. -/
theorem c3_witness :
    Parse "f" ["k=a".data, "k=b".data] [{name := "k".data}] =
      (⟨"f", 2, "k".data, "b".data,
        [{name := "k".data, set := true, stored := "a".data}],
        [(0, "a".data)]⟩,
       some ⟨"f", 2, "k".data, "b".data, .errAlreadyDef⟩) :=
  c3_duplicate_assignment "f" "k".data "a".data "b".data "a".data [] []
    {name := "k".data} (by decide) (by decide) (by decide) (by decide)
    (by decide) (by simp) rfl rfl rfl rfl

/-- C8: for a well-formed plain value, the string passed to the setter
is exactly the literal text of the value as it appears on the line: the
trace of the parse of the assignment holds the one invocation with that
text, whatever the setter returns. -/
theorem c8_plain_literal (file : String) (id val : Str)
    (pre post : List Var) (v : Var)
    (hid : identOK id = true) (hval : plainOK val = true)
    (hlen : utf8Len (id ++ '=' :: val) < 4096)
    (hpre : ∀ w ∈ pre, w.name ≠ id) (hv : v.name = id)
    (hset : v.set = false) (hfs : v.flagSet = false) :
    ((Parse file [id ++ '=' :: val] (pre ++ v :: post)).1).trace =
      [(pre.length, val)] := by
  unfold Parse
  simp only [runLines]
  rw [if_neg (by omega)]
  rw [parseLine_plain hid hval]
  unfold setValue
  rcases hres : v.val.set val with e | s
  · rw [setValueAux_err hpre hv hset hfs hres]
    simp
  · rw [setValueAux_ok hpre hv hset hfs hres]
    simp [runLines]

/-- C8 (witness): the theorem applied to a concrete plain value. -/
theorem c8_witness :
    ((Parse "f" ["k=a-b_c".data] [{name := "k".data}]).1).trace =
      [(0, "a-b_c".data)] :=
  c8_plain_literal "f" "k".data "a-b_c".data [] [] {name := "k".data}
    (by decide) (by decide) (by decide) (by simp) rfl rfl rfl


/-- Upper-case hexadecimal digit character for a value below 16. -/
def hexDigitChar (n : Nat) : Char :=
  Char.ofNat (if n < 10 then 48 + n else 55 + n)

/-- Four hexadecimal digits of a value below 0x10000. -/
def hex4 (n : Nat) : Str :=
  [hexDigitChar (n / 4096 % 16), hexDigitChar (n / 256 % 16),
   hexDigitChar (n / 16 % 16), hexDigitChar (n % 16)]

/-- Eight hexadecimal digits of a value below 0x100000000. -/
def hex8 (n : Nat) : Str := hex4 (n / 65536) ++ hex4 (n % 65536)

/-- The encoder of the round-trip property (spec side): each character
of the value is written either as itself, as an escaped quote or
backslash, or, for characters of class C that quoted values may not
contain literally, as a u or U escape from the documented set. -/
def escChar (c : Char) : Str :=
  if c = '"' then ['\\', '"']
  else if c = '\\' then ['\\', '\\']
  else if isClassC c then
    if c.toNat < 0x10000 then '\\' :: 'u' :: hex4 c.toNat
    else '\\' :: 'U' :: hex8 c.toNat
  else [c]

/-- Encode an arbitrary string as a double-quoted configuration value
using the documented escapes. -/
def quoteConf (s : Str) : Str := '"' :: ((s.map escChar).flatten ++ ['"'])

theorem hexDigitChar_facts :
    ∀ n < 16, unhex (hexDigitChar n) = some n ∧
      isClassC (hexDigitChar n) = false ∧ hexDigitChar n ≠ '"' ∧
      hexDigitChar n ≠ '\\' ∧ hexDigitChar n ≠ Char.ofNat 10 := by
  decide

theorem quotedBody_close (rest : Str) : quotedBody ('"' :: rest) = some ([], rest) := by
  conv_lhs => rw [quotedBody.eq_def]
  simp

theorem quotedBody_lit {c : Char} (t : Str) (h1 : c ≠ '"')
    (h2 : c ≠ '\\') (h3 : isClassC c = false) :
    quotedBody (c :: t) =
      (fun (u, r) => (c :: u, r)) <$> quotedBody t := by
  conv_lhs => rw [quotedBody.eq_def]
  simp [h1, h2, h3]

theorem quotedBody_pair {d : Char} (t : Str) (h3 : isClassC d = false) :
    quotedBody ('\\' :: d :: t) =
      (fun (u, r) => ('\\' :: d :: u, r)) <$> quotedBody t := by
  conv_lhs => rw [quotedBody.eq_def]
  simp [h3]

theorem quotedBody_quoteConf (s : Str) (rest : Str) :
    quotedBody ((s.map escChar).flatten ++ '"' :: rest) =
      some ((s.map escChar).flatten, rest) := by
  induction s with
  | nil =>
    simp only [List.map_nil, List.flatten_nil, List.nil_append]
    exact quotedBody_close rest
  | cons c cs ih =>
    simp only [List.map_cons, List.flatten_cons, List.append_assoc]
    by_cases hq : c = '"'
    · subst hq
      rw [show escChar '"' = ['\\', '"'] from rfl]
      rw [List.cons_append, List.cons_append, List.nil_append,
        quotedBody_pair _ (by decide), ih]
      rfl
    · by_cases hb : c = '\\'
      · subst hb
        rw [show escChar '\\' = ['\\', '\\'] from rfl]
        rw [List.cons_append, List.cons_append, List.nil_append,
          quotedBody_pair _ (by decide), ih]
        rfl
      · rcases Bool.eq_false_or_eq_true (isClassC c) with hc | hc
        · rw [show escChar c = if c.toNat < 0x10000
              then '\\' :: 'u' :: hex4 c.toNat
              else '\\' :: 'U' :: hex8 c.toNat by
            simp [escChar, hq, hb, hc]]
          by_cases hsz : c.toNat < 0x10000
          · rw [if_pos hsz]
            obtain ⟨-, k1, k2, k3, -⟩ :=
              hexDigitChar_facts (c.toNat / 4096 % 16) (by omega)
            obtain ⟨-, l1, l2, l3, -⟩ :=
              hexDigitChar_facts (c.toNat / 256 % 16) (by omega)
            obtain ⟨-, m1, m2, m3, -⟩ :=
              hexDigitChar_facts (c.toNat / 16 % 16) (by omega)
            obtain ⟨-, n1, n2, n3, -⟩ :=
              hexDigitChar_facts (c.toNat % 16) (by omega)
            simp only [hex4, List.cons_append, List.nil_append]
            rw [quotedBody_pair _ (by decide)]
            rw [quotedBody_lit _ k2 k3 k1, quotedBody_lit _ l2 l3 l1,
              quotedBody_lit _ m2 m3 m1, quotedBody_lit _ n2 n3 n1, ih]
            rfl
          · rw [if_neg hsz]
            have hv : c.toNat < 0xD800 ∨
                (0xDFFF < c.toNat ∧ c.toNat < 0x110000) := c.valid
            obtain ⟨-, k1, k2, k3, -⟩ :=
              hexDigitChar_facts (c.toNat / 65536 / 4096 % 16) (by omega)
            obtain ⟨-, l1, l2, l3, -⟩ :=
              hexDigitChar_facts (c.toNat / 65536 / 256 % 16) (by omega)
            obtain ⟨-, m1, m2, m3, -⟩ :=
              hexDigitChar_facts (c.toNat / 65536 / 16 % 16) (by omega)
            obtain ⟨-, n1, n2, n3, -⟩ :=
              hexDigitChar_facts (c.toNat / 65536 % 16) (by omega)
            obtain ⟨-, o1, o2, o3, -⟩ :=
              hexDigitChar_facts (c.toNat % 65536 / 4096 % 16) (by omega)
            obtain ⟨-, p1, p2, p3, -⟩ :=
              hexDigitChar_facts (c.toNat % 65536 / 256 % 16) (by omega)
            obtain ⟨-, q1, q2, q3, -⟩ :=
              hexDigitChar_facts (c.toNat % 65536 / 16 % 16) (by omega)
            obtain ⟨-, r1, r2, r3, -⟩ :=
              hexDigitChar_facts (c.toNat % 65536 % 16) (by omega)
            simp only [hex8, hex4, List.cons_append, List.append_assoc,
              List.nil_append]
            rw [quotedBody_pair _ (by decide)]
            rw [quotedBody_lit _ k2 k3 k1, quotedBody_lit _ l2 l3 l1,
              quotedBody_lit _ m2 m3 m1, quotedBody_lit _ n2 n3 n1,
              quotedBody_lit _ o2 o3 o1, quotedBody_lit _ p2 p3 p1,
              quotedBody_lit _ q2 q3 q1, quotedBody_lit _ r2 r3 r1, ih]
            rfl
        · rw [show escChar c = [c] by simp [escChar, hq, hb, hc]]
          rw [List.cons_append, List.nil_append,
            quotedBody_lit _ hq hb hc, ih]
          rfl

theorem unquoteChar_lit {c : Char} (t : Str) (h1 : c ≠ '"')
    (h2 : c ≠ '\\') : unquoteChar (c :: t) = some (c, t) := by
  unfold unquoteChar
  simp [h1, h2]

theorem unquoteChar_escq (t : Str) :
    unquoteChar ('\\' :: '"' :: t) = some ('"', t) := by
  unfold unquoteChar
  simp

theorem unquoteChar_escb (t : Str) :
    unquoteChar ('\\' :: '\\' :: t) = some ('\\', t) := by
  unfold unquoteChar
  simp

theorem unquoteChar_u (n : Nat) (hn : n < 0x10000) (t : Str) :
    unquoteChar ('\\' :: 'u' :: (hex4 n ++ t)) = some (appRune n, t) := by
  obtain ⟨u1, -⟩ := hexDigitChar_facts (n / 4096 % 16) (by omega)
  obtain ⟨u2, -⟩ := hexDigitChar_facts (n / 256 % 16) (by omega)
  obtain ⟨u3, -⟩ := hexDigitChar_facts (n / 16 % 16) (by omega)
  obtain ⟨u4, -⟩ := hexDigitChar_facts (n % 16) (by omega)
  have harith : ((n / 4096 % 16 * 16 + n / 256 % 16) * 16 + n / 16 % 16) *
      16 + n % 16 = n := by omega
  unfold unquoteChar
  simp [hex4, u1, u2, u3, u4, harith]

theorem unquoteChar_U (n : Nat) (hn : n < 0x110000) (t : Str) :
    unquoteChar ('\\' :: 'U' :: (hex8 n ++ t)) = some (appRune n, t) := by
  obtain ⟨q, r, hqr, hr, hq⟩ :
      ∃ q r, n = 65536 * q + r ∧ r < 65536 ∧ q < 17 :=
    ⟨n / 65536, n % 65536, by omega, by omega, by omega⟩
  have h1 : n / 65536 = q := by omega
  have h2 : n % 65536 = r := by omega
  rw [hex8, h1, h2]
  obtain ⟨u1, -⟩ := hexDigitChar_facts (q / 4096 % 16) (by omega)
  obtain ⟨u2, -⟩ := hexDigitChar_facts (q / 256 % 16) (by omega)
  obtain ⟨u3, -⟩ := hexDigitChar_facts (q / 16 % 16) (by omega)
  obtain ⟨u4, -⟩ := hexDigitChar_facts (q % 16) (by omega)
  obtain ⟨u5, -⟩ := hexDigitChar_facts (r / 4096 % 16) (by omega)
  obtain ⟨u6, -⟩ := hexDigitChar_facts (r / 256 % 16) (by omega)
  obtain ⟨u7, -⟩ := hexDigitChar_facts (r / 16 % 16) (by omega)
  obtain ⟨u8, -⟩ := hexDigitChar_facts (r % 16) (by omega)
  have hfold : (((((((q / 4096 % 16 * 16 + q / 256 % 16) * 16 +
      q / 16 % 16) * 16 + q % 16) * 16 + r / 4096 % 16) * 16 +
      r / 256 % 16) * 16 + r / 16 % 16) * 16 + r % 16) = n := by omega
  have hle : ¬((((((((q / 4096 % 16 * 16 + q / 256 % 16) * 16 +
      q / 16 % 16) * 16 + q % 16) * 16 + r / 4096 % 16) * 16 +
      r / 256 % 16) * 16 + r / 16 % 16) * 16 + r % 16) > 0x10FFFF) := by
    omega
  unfold unquoteChar
  simp [hex4, u1, u2, u3, u4, u5, u6, u7, u8, hle, hfold]
  omega

/-- appRune on the scalar value of a character gives the character
back. -/
theorem appRune_toNat (c : Char) : appRune c.toNat = c := by
  have hv : c.toNat < 0xD800 ∨
      (0xDFFF < c.toNat ∧ c.toNat < 0x110000) := c.valid
  unfold appRune
  rw [if_pos (by omega)]
  exact Char.ofNat_toNat c

/-- One unquoteChar step undoes the encoding of one character. -/
theorem unquoteChar_escChar (c : Char) (t : Str) :
    unquoteChar (escChar c ++ t) = some (c, t) := by
  by_cases hq : c = '"'
  · subst hq
    rw [show escChar '"' = ['\\', '"'] from rfl]
    exact unquoteChar_escq t
  · by_cases hb : c = '\\'
    · subst hb
      rw [show escChar '\\' = ['\\', '\\'] from rfl]
      exact unquoteChar_escb t
    · rcases Bool.eq_false_or_eq_true (isClassC c) with hc | hc
      · rw [show escChar c = if c.toNat < 0x10000
            then '\\' :: 'u' :: hex4 c.toNat
            else '\\' :: 'U' :: hex8 c.toNat by
          simp [escChar, hq, hb, hc]]
        by_cases hsz : c.toNat < 0x10000
        · rw [if_pos hsz, List.cons_append, List.cons_append,
            unquoteChar_u c.toNat hsz, appRune_toNat]
        · rw [if_neg hsz]
          have hv : c.toNat < 0xD800 ∨
              (0xDFFF < c.toNat ∧ c.toNat < 0x110000) := c.valid
          rw [List.cons_append, List.cons_append,
            unquoteChar_U c.toNat (by omega), appRune_toNat]
      · rw [show escChar c = [c] by simp [escChar, hq, hb, hc]]
        rw [List.cons_append, List.nil_append]
        exact unquoteChar_lit t hq hb

theorem escChar_length_pos (c : Char) : 0 < (escChar c).length := by
  unfold escChar
  split_ifs <;> simp [hex4, hex8]

/-- The Unquote loop undoes the encoder whenever the fuel covers the
length of the encoded body. -/
theorem unquoteRun_quoteConf (s : Str) :
    ∀ fuel, ((s.map escChar).flatten).length ≤ fuel →
      unquoteRun fuel ((s.map escChar).flatten) = some s := by
  induction s with
  | nil =>
    intro fuel _
    cases fuel <;> rfl
  | cons c cs ih =>
    intro fuel hf
    simp only [List.map_cons, List.flatten_cons] at hf ⊢
    have hpos := escChar_length_pos c
    obtain ⟨f, rfl⟩ : ∃ f, fuel = f + 1 :=
      ⟨fuel - 1, by simp only [List.length_append] at hf; omega⟩
    obtain ⟨e0, es, he⟩ : ∃ e0 es, escChar c = e0 :: es := by
      cases hesc : escChar c with
      | nil => rw [hesc] at hpos; simp at hpos
      | cons e0 es => exact ⟨e0, es, rfl⟩
    have hstep := unquoteChar_escChar c ((cs.map escChar).flatten)
    rw [he] at hstep ⊢
    rw [List.cons_append] at hstep ⊢
    rw [unquoteRun, hstep]
    dsimp only
    rw [ih f (by
      rw [he] at hf
      simp only [List.cons_append, List.length_cons,
        List.length_append] at hf
      omega)]
    rfl

theorem hex4_no_newline (n : Nat) : '\n' ∉ hex4 n := by
  obtain ⟨-, -, -, -, k1⟩ := hexDigitChar_facts (n / 4096 % 16) (by omega)
  obtain ⟨-, -, -, -, k2⟩ := hexDigitChar_facts (n / 256 % 16) (by omega)
  obtain ⟨-, -, -, -, k3⟩ := hexDigitChar_facts (n / 16 % 16) (by omega)
  obtain ⟨-, -, -, -, k4⟩ := hexDigitChar_facts (n % 16) (by omega)
  simp only [hex4, List.mem_cons, List.not_mem_nil, or_false]
  rintro (h | h | h | h)
  exacts [k1 h.symm, k2 h.symm, k3 h.symm, k4 h.symm]

theorem hex8_no_newline (n : Nat) : '\n' ∉ hex8 n := by
  simp only [hex8, List.mem_append]
  rintro (h | h)
  exacts [hex4_no_newline _ h, hex4_no_newline _ h]

theorem escChar_no_newline (c : Char) : '\n' ∉ escChar c := by
  unfold escChar
  split_ifs with h1 h2 h3 h4
  · decide
  · decide
  · simp only [List.mem_cons]
    rintro (h | h | h)
    · exact absurd h (by decide)
    · exact absurd h (by decide)
    · exact hex4_no_newline _ h
  · simp only [List.mem_cons]
    rintro (h | h | h)
    · exact absurd h (by decide)
    · exact absurd h (by decide)
    · exact hex8_no_newline _ h
  · simp only [List.mem_singleton]
    rintro rfl
    exact h3 (by decide)

theorem quoteConf_no_newline (s : Str) : '\n' ∉ quoteConf s := by
  unfold quoteConf
  simp only [List.mem_cons, List.mem_append, List.mem_flatten,
    List.mem_map, List.mem_singleton]
  rintro (h | ⟨l, ⟨c, -, rfl⟩, hl⟩ | h)
  · exact absurd h (by decide)
  · exact escChar_no_newline c hl
  · exact absurd h (by decide)

/-- strconv.Unquote undoes the encoder. -/
theorem unquote_quoteConf (s : Str) : unquote (quoteConf s) = some s := by
  have hnl := quoteConf_no_newline s
  unfold quoteConf at hnl ⊢
  unfold unquote
  rw [if_neg (by simp), if_neg hnl]
  show (if ((s.map escChar).flatten ++ ['"']).getLast? = some '"' then
      unquoteRun ((s.map escChar).flatten ++ ['"']).dropLast.length
        ((s.map escChar).flatten ++ ['"']).dropLast
    else none) = some s
  rw [List.getLast?_concat, if_pos rfl, List.dropLast_concat]
  exact unquoteRun_quoteConf s _ le_rfl

/-- The quotedRE scanner matches the whole encoded value. -/
theorem quotedFind_quoteConf (s : Str) :
    quotedFind (quoteConf s) = quoteConf s := by
  unfold quotedFind quoteConf
  show (match quotedBody ((s.map escChar).flatten ++ ['"']) with
      | some (u, _) => '"' :: (u ++ ['"'])
      | none => []) = '"' :: ((s.map escChar).flatten ++ ['"'])
  rw [show (s.map escChar).flatten ++ ['"'] =
    (s.map escChar).flatten ++ '"' :: [] from rfl]
  rw [quotedBody_quoteConf]

/-- parseLine on a well-formed quoted assignment reduces to setValue
with the decoded value. -/
theorem parseLine_quoted {p : PState} {id : Str} (s : Str)
    (hid : identOK id = true) :
    parseLine p (id ++ '=' :: quoteConf s) =
      setValue {p with ident := id, value := quoteConf s} s := by
  match id, hid with
  | c :: cs, hid =>
    have hid' := hid
    simp only [identOK, Bool.and_eq_true, List.all_eq_true] at hid'
    obtain ⟨hc, -⟩ := hid'
    have hch : c ≠ '#' := identAlpha_ne_hash hc
    have hqc : quoteConf s = '"' :: ((s.map escChar).flatten ++ ['"']) := rfl
    have e1 : eatSpace (c :: (cs ++ '=' :: quoteConf s)) =
        c :: (cs ++ '=' :: quoteConf s) :=
      eatSpace_cons (identAlpha_not_space hc)
    have hkey : identTake (c :: (cs ++ '=' :: quoteConf s)) = c :: cs := by
      have h := identTake_assign hid (quoteConf s)
      simp only [List.cons_append] at h
      exact h
    have hdrop : List.drop (cs.length + 1) (c :: (cs ++ '=' :: quoteConf s)) =
        '=' :: quoteConf s := by
      have h := List.drop_left (c :: cs) ('=' :: quoteConf s)
      simp only [List.cons_append, List.length_cons] at h
      exact h
    have e2 : eatSpace ('=' :: quoteConf s) = '=' :: quoteConf s :=
      eatSpace_cons (by decide)
    have e3 : eatSpace (quoteConf s) = quoteConf s := by
      rw [hqc]
      exact eatSpace_cons (by decide)
    have htake : plainTake (quoteConf s) = [] := by
      rw [hqc]
      simp only [plainTake, List.takeWhile_cons]
      rw [if_neg (by decide)]
    simp only [parseLine, List.cons_append, e1, List.head?_cons,
      Option.some.injEq, hch, hkey, List.length_cons, hdrop, e2, e3,
      List.drop_one, List.tail_cons, htake, quotedFind_quoteConf,
      unquote_quoteConf, List.drop_length, List.cons_ne_nil, eatSpace_nil]
    simp [eatSpace]

/-- C7: a value that cannot be written as a plain value, encoded as a
double-quoted value with the documented escapes, is decoded by the file
parser back to exactly the original string as the argument passed to
the setter: the trace of the parse of the assignment holds the one
invocation with that string. -/
theorem c7_quoted_roundtrip (file : String) (id s : Str)
    (pre post : List Var) (v : Var)
    (hid : identOK id = true) (_hneed : plainOK s = false)
    (hlen : utf8Len (id ++ '=' :: quoteConf s) < 4096)
    (hpre : ∀ w ∈ pre, w.name ≠ id) (hv : v.name = id)
    (hset : v.set = false) (hfs : v.flagSet = false) :
    ((Parse file [id ++ '=' :: quoteConf s] (pre ++ v :: post)).1).trace =
      [(pre.length, s)] := by
  unfold Parse
  simp only [runLines]
  rw [if_neg (by omega)]
  rw [parseLine_quoted s hid]
  unfold setValue
  rcases hres : v.val.set s with e | t
  · rw [setValueAux_err hpre hv hset hfs hres]
    simp
  · rw [setValueAux_ok hpre hv hset hfs hres]
    simp [runLines]

/-- C7 (witness): the theorem applied to the value a b, which contains
a space and so cannot be written plain. -/
theorem c7_witness :
    ((Parse "f" ["k".data ++ '=' :: quoteConf "a b".data]
      [{name := "k".data}]).1).trace = [(0, "a b".data)] :=
  c7_quoted_roundtrip "f" "k".data "a b".data [] [] {name := "k".data}
    (by decide) (by decide) (by decide) (by simp) rfl rfl rfl


/-- C4: supplying the same short flag twice in one invocation of the
traditional parser is not rejected as already set: the setter is simply
called again with the later value, which wins, and no error is
returned (the current getopt.go has no already-set guard; only the
superseded revision in src/unnamed/part_001 rejects this case). -/
theorem c4_repeated_flag (a b sa sb s0 : Str) (f : Str → Except Err Str)
    (ha : f a = .ok sa) (hb : f b = .ok sb) :
    GetOpt [['-', 'x'], a, ['-', 'x'], b]
      [{flag := 'x', val := ⟨f⟩, stored := s0}] =
      (⟨[], [{flag := 'x', val := ⟨f⟩, flagSet := true, stored := sb}],
        [(0, a), (0, b)]⟩, none) := by
  simp [GetOpt, doGetOpt, doGetOptLoop, nextArg, procCluster, nextFlag,
    findFlagIdx, findIdxFrom, callSet, ha, hb]

/-- C4 (witness): the theorem applied to a string-valued flag given
twice; the second write wins. -/
theorem c4_witness :
    GetOpt [['-', 'x'], "a".data, ['-', 'x'], "b".data]
      [{flag := 'x', val := ⟨fun s => .ok s⟩, stored := "s".data}] =
      (⟨[],
        [{flag := 'x', val := ⟨fun s => .ok s⟩, flagSet := true,
          stored := "b".data}],
        [(0, "a".data), (0, "b".data)]⟩, none) :=
  c4_repeated_flag "a".data "b".data "a".data "b".data "s".data
    (fun s => .ok s) rfl rfl

/-- C6: in the traditional dialect, with n declared NoArg and h
declared HasArg, the vector -nhparam arg0 arg1 produces the same setter
calls, the same final Var states and the same residual list as
-n -h param arg0 arg1 and as -n -h param -- arg0 arg1, namely the calls
true then param, both flags marked set, and residual arg0 arg1. -/
theorem c6_traditional_cluster_equiv (sn sh sn' sh' : Str)
    (fn fh : Str → Except Err Str)
    (hn : fn "true".data = .ok sn') (hh : fh "param".data = .ok sh') :
    GetOpt ["-nhparam".data, "arg0".data, "arg1".data]
        [{flag := 'n', val := ⟨fn⟩, kind := .noArg, stored := sn},
         {flag := 'h', val := ⟨fh⟩, stored := sh}] =
      (⟨["arg0".data, "arg1".data],
        [{flag := 'n', val := ⟨fn⟩, kind := .noArg, flagSet := true,
            stored := sn'},
         {flag := 'h', val := ⟨fh⟩, flagSet := true, stored := sh'}],
        [(0, "true".data), (1, "param".data)]⟩, none) ∧
    GetOpt ["-n".data, "-h".data, "param".data, "arg0".data, "arg1".data]
        [{flag := 'n', val := ⟨fn⟩, kind := .noArg, stored := sn},
         {flag := 'h', val := ⟨fh⟩, stored := sh}] =
      (⟨["arg0".data, "arg1".data],
        [{flag := 'n', val := ⟨fn⟩, kind := .noArg, flagSet := true,
            stored := sn'},
         {flag := 'h', val := ⟨fh⟩, flagSet := true, stored := sh'}],
        [(0, "true".data), (1, "param".data)]⟩, none) ∧
    GetOpt ["-n".data, "-h".data, "param".data, "--".data, "arg0".data,
        "arg1".data]
        [{flag := 'n', val := ⟨fn⟩, kind := .noArg, stored := sn},
         {flag := 'h', val := ⟨fh⟩, stored := sh}] =
      (⟨["arg0".data, "arg1".data],
        [{flag := 'n', val := ⟨fn⟩, kind := .noArg, flagSet := true,
            stored := sn'},
         {flag := 'h', val := ⟨fh⟩, flagSet := true, stored := sh'}],
        [(0, "true".data), (1, "param".data)]⟩, none) := by
  refine ⟨?_, ?_, ?_⟩ <;>
    simp [GetOpt, doGetOpt, doGetOptLoop, nextArg, procCluster, nextFlag,
      findFlagIdx, findIdxFrom, callSet, hn, hh]

/-- C6 (witness): the three-way equivalence at string-valued setters. -/
theorem c6_witness :
    GetOpt ["-nhparam".data, "arg0".data, "arg1".data]
        [{flag := 'n', val := ⟨fun s => .ok s⟩, kind := .noArg},
         {flag := 'h', val := ⟨fun s => .ok s⟩}] =
      (⟨["arg0".data, "arg1".data],
        [{flag := 'n', val := ⟨fun s => .ok s⟩, kind := .noArg,
            flagSet := true, stored := "true".data},
         {flag := 'h', val := ⟨fun s => .ok s⟩, flagSet := true,
            stored := "param".data}],
        [(0, "true".data), (1, "param".data)]⟩, none) :=
  (c6_traditional_cluster_equiv [] [] "true".data "param".data
    (fun s => .ok s) (fun s => .ok s) rfl rfl).1


theorem procCluster_nil (fuel : Nat) (k : ArgKind) (st : GOState) :
    procCluster fuel k [] st = (st, none) := by
  cases fuel <;> rfl

theorem doGetOptLoop_done (fuel : Nat) (flav : Flavour) (st : GOState)
    (h : st.args = []) : doGetOptLoop fuel flav st = (st, none) := by
  cases fuel with
  | zero => rfl
  | succ f =>
    unfold doGetOptLoop
    rw [h]

/-- A double-dash argument with a nonempty tail is a GNU long flag. -/
theorem nextArg_gnu (rest : Str) (hne : rest ≠ []) :
    nextArg ('-' :: '-' :: rest) .gnuLong = (.gnuLongFlag, rest) := by
  unfold nextArg
  rw [if_neg (by simp only [List.length_cons]; omega)]
  dsimp only
  rw [if_pos rfl]
  rw [if_neg (by
    rintro ⟨-, h2⟩
    simp only [List.length_cons] at h2
    exact hne (List.length_eq_zero.mp (by omega)))]
  rw [if_pos ⟨rfl, rfl⟩]
  simp

/-- Splitting a GNU long flag with an equals sign at the first equals
sign. -/
theorem nextFlag_gnu_eq (name value : Str) (heq : '=' ∉ name) :
    nextFlag (name ++ '=' :: value) .gnuLongFlag = ('=', name, value) := by
  have hall : ∀ a ∈ name, (decide ¬(a = '=')) = true := by
    intro a ha
    simp only [decide_not, Bool.not_eq_true', decide_eq_false_iff_not]
    exact fun e => heq (e ▸ ha)
  have hmem : '=' ∈ name ++ '=' :: value :=
    List.mem_append_right name (List.mem_cons_self '=' value)
  unfold nextFlag
  dsimp only
  rw [if_pos (by simp [List.elem_iff, hmem])]
  rw [List.takeWhile_append_of_pos hall,
    List.dropWhile_append_of_pos hall]
  simp [List.takeWhile_cons, List.dropWhile_cons]

/-- A GNU long flag without an equals sign is passed through whole. -/
theorem nextFlag_gnu_bare (name : Str) (heq : '=' ∉ name) :
    nextFlag name .gnuLongFlag = (Char.ofNat 0, name, []) := by
  unfold nextFlag
  dsimp only
  rw [if_neg (by simpa [List.elem_iff] using heq)]


/-- C9: in the GNU dialect, a long flag written name equals value calls
the setter of a HasArg Var with exactly the text after the first equals
sign; on a NoArg Var it fails with junk at end of option (the error
carrying that text); and a bare double-dash name on a HasArg Var
consumes the next whole argument as the value. -/
theorem c9_gnu_long_forms (name value next s0 sa sn : Str)
    (f : Str → Except Err Str)
    (hname : name ≠ []) (heq : '=' ∉ name)
    (hval : f value = .ok sa) (hnext : f next = .ok sn) :
    (GetOptLong ['-' :: '-' :: (name ++ '=' :: value)]
        [{name := name, val := ⟨f⟩, stored := s0}] =
      (⟨[], [{name := name, val := ⟨f⟩, flagSet := true, stored := sa}],
        [(0, value)]⟩, none)) ∧
    (GetOptLong ['-' :: '-' :: (name ++ '=' :: value)]
        [{name := name, val := ⟨f⟩, kind := .noArg, stored := s0}] =
      (⟨[], [{name := name, val := ⟨f⟩, kind := .noArg, stored := s0}],
        []⟩, some ⟨Char.ofNat 0, value, .errEndJunk⟩)) ∧
    (GetOptLong ['-' :: '-' :: name, next]
        [{name := name, val := ⟨f⟩, stored := s0}] =
      (⟨[], [{name := name, val := ⟨f⟩, flagSet := true, stored := sn}],
        [(0, next)]⟩, none)) := by
  refine ⟨?_, ?_, ?_⟩
  · unfold GetOptLong doGetOpt
    rw [show ([('-' :: '-' :: (name ++ '=' :: value))] : List Str).length +
      1 = 2 from rfl]
    rw [doGetOptLoop]
    dsimp only
    rw [nextArg_gnu _ (by simp)]
    dsimp only
    obtain ⟨k, hk⟩ : ∃ k, (name ++ '=' :: value).length = k + 1 :=
      ⟨name.length + value.length, by simp [List.length_append]; omega⟩
    rw [hk, procCluster]
    rw [if_neg (by simp)]
    rw [nextFlag_gnu_eq name value heq]
    dsimp only
    rw [if_neg (by decide)]
    rw [show findFlagIdx '=' name .gnuLongFlag
        [{name := name, val := ⟨f⟩, stored := s0}] = some 0 by
      simp [findFlagIdx, findIdxFrom]]
    dsimp only
    by_cases hv : value = []
    · subst hv
      simp [callSet, hval, procCluster_nil, doGetOptLoop_done]
    · simp [hv, callSet, hval, procCluster_nil, doGetOptLoop_done]
  · unfold GetOptLong doGetOpt
    rw [show ([('-' :: '-' :: (name ++ '=' :: value))] : List Str).length +
      1 = 2 from rfl]
    rw [doGetOptLoop]
    dsimp only
    rw [nextArg_gnu _ (by simp)]
    dsimp only
    obtain ⟨k, hk⟩ : ∃ k, (name ++ '=' :: value).length = k + 1 :=
      ⟨name.length + value.length, by simp [List.length_append]; omega⟩
    rw [hk, procCluster]
    rw [if_neg (by simp)]
    rw [nextFlag_gnu_eq name value heq]
    dsimp only
    rw [if_neg (by decide)]
    rw [show findFlagIdx '=' name .gnuLongFlag
        [{name := name, val := ⟨f⟩, kind := .noArg, stored := s0}] =
        some 0 by
      simp [findFlagIdx, findIdxFrom]]
    dsimp only
    simp
  · unfold GetOptLong doGetOpt
    rw [show (['-' :: '-' :: name, next] : List Str).length + 1 = 3
      from rfl]
    rw [doGetOptLoop]
    dsimp only
    rw [nextArg_gnu _ hname]
    dsimp only
    obtain ⟨k, hk⟩ : ∃ k, name.length = k + 1 := by
      cases name with
      | nil => exact absurd rfl hname
      | cons a as => exact ⟨as.length, rfl⟩
    rw [hk, procCluster]
    rw [if_neg hname]
    rw [nextFlag_gnu_bare name heq]
    dsimp only
    rw [if_neg (by decide)]
    rw [show findFlagIdx (Char.ofNat 0) name .gnuLongFlag
        [{name := name, val := ⟨f⟩, stored := s0}] = some 0 by
      simp [findFlagIdx, findIdxFrom]]
    dsimp only
    rw [if_neg (by decide)]
    simp [callSet, hnext, procCluster_nil, doGetOptLoop_done]

/-- C9 (witness): the three behaviours at the long name long with value
v and following argument w. -/
theorem c9_witness :
    GetOptLong ['-' :: '-' :: ("long".data ++ '=' :: "v".data)]
        [{name := "long".data, val := ⟨fun s => .ok s⟩, stored := []}] =
      (⟨[],
        [{name := "long".data, val := ⟨fun s => .ok s⟩, flagSet := true,
          stored := "v".data}],
        [(0, "v".data)]⟩, none) :=
  (c9_gnu_long_forms "long".data "v".data "w".data [] "v".data "w".data
    (fun s => .ok s) (by decide) (by decide) rfl rfl).1

/-- C10: in the GNU dialect, name equals with empty value text sets a
HasArg Var to the empty string and leaves the next argument in the
residual vector, while a bare double-dash name consumes the next
argument as the value. -/
theorem c10_gnu_long_empty_value (name next s0 se sn : Str)
    (f : Str → Except Err Str)
    (hname : name ≠ []) (heq : '=' ∉ name)
    (hemp : f [] = .ok se) (hnext : f next = .ok sn)
    (hstop : nextArg next .gnuLong = (.endArg, [])) :
    (GetOptLong ['-' :: '-' :: (name ++ ['=']), next]
        [{name := name, val := ⟨f⟩, stored := s0}] =
      (⟨[next],
        [{name := name, val := ⟨f⟩, flagSet := true, stored := se}],
        [(0, [])]⟩, none)) ∧
    (GetOptLong ['-' :: '-' :: name, next]
        [{name := name, val := ⟨f⟩, stored := s0}] =
      (⟨[], [{name := name, val := ⟨f⟩, flagSet := true, stored := sn}],
        [(0, next)]⟩, none)) := by
  constructor
  · unfold GetOptLong doGetOpt
    rw [show (['-' :: '-' :: (name ++ ['=']), next] : List Str).length + 1
      = 3 from rfl]
    rw [doGetOptLoop]
    dsimp only
    rw [show (name ++ ['=']) = name ++ '=' :: [] from rfl]
    rw [nextArg_gnu _ (by simp)]
    dsimp only
    obtain ⟨k, hk⟩ : ∃ k, (name ++ '=' :: ([] : Str)).length = k + 1 :=
      ⟨name.length, by simp [List.length_append]⟩
    rw [hk, procCluster]
    rw [if_neg (by simp)]
    rw [nextFlag_gnu_eq name [] heq]
    dsimp only
    rw [if_neg (by decide)]
    rw [show findFlagIdx '=' name .gnuLongFlag
        [{name := name, val := ⟨f⟩, stored := s0}] = some 0 by
      simp [findFlagIdx, findIdxFrom]]
    dsimp only
    simp [callSet, hemp, procCluster_nil, doGetOptLoop, hstop]
  · unfold GetOptLong doGetOpt
    rw [show (['-' :: '-' :: name, next] : List Str).length + 1 = 3
      from rfl]
    rw [doGetOptLoop]
    dsimp only
    rw [nextArg_gnu _ hname]
    dsimp only
    obtain ⟨k, hk⟩ : ∃ k, name.length = k + 1 := by
      cases name with
      | nil => exact absurd rfl hname
      | cons a as => exact ⟨as.length, rfl⟩
    rw [hk, procCluster]
    rw [if_neg hname]
    rw [nextFlag_gnu_bare name heq]
    dsimp only
    rw [if_neg (by decide)]
    rw [show findFlagIdx (Char.ofNat 0) name .gnuLongFlag
        [{name := name, val := ⟨f⟩, stored := s0}] = some 0 by
      simp [findFlagIdx, findIdxFrom]]
    dsimp only
    rw [if_neg (by decide)]
    simp [callSet, hnext, procCluster_nil, doGetOptLoop_done]

/-- C10 (witness): the empty-value form sets the empty string and does
not consume the following argument, the bare form does consume it. -/
theorem c10_witness :
    GetOptLong ['-' :: '-' :: ("long".data ++ ['=']), "w".data]
        [{name := "long".data, val := ⟨fun s => .ok s⟩, stored := []}] =
      (⟨["w".data],
        [{name := "long".data, val := ⟨fun s => .ok s⟩, flagSet := true,
          stored := []}],
        [(0, [])]⟩, none) :=
  (c10_gnu_long_empty_value "long".data "w".data [] [] "w".data
    (fun s => .ok s) (by decide) (by decide) rfl rfl (by decide)).1


/-- C5 (counterexample): the claim fails as stated against the current
getopt.go renderer.  A NoArg flag b whose setter rejects the implicit
parameter true yields a FlagError whose value field is the non-empty
offending value true, yet the rendered string shows the flag character
b, not the value: the renderer treats the literal value true like an
empty value (and the current FlagError has no separate long-name
field at all). -/
theorem c5_counterexample :
    (GetOpt ["-b".data]
      [{flag := 'b', kind := .noArg,
        val := ⟨fun _ => .error (.custom "invalid syntax")⟩}]).2 =
      some ⟨'b', "true".data, .custom "invalid syntax"⟩ ∧
    FlagError.render ⟨'b', "true".data, .custom "invalid syntax"⟩ =
      "invalid syntax -- b" ∧
    "invalid syntax -- b" ≠ "invalid syntax -- true" :=
  ⟨rfl, rfl, by decide⟩

/-- C5 (amended): the current getopt.go FlagError renders as message,
two dashes, then the value when it is neither empty nor the literal
true, and the flag character otherwise (long names reach the reader
only because they are passed through the value field); the extended
FlagError of the revision in src/unnamed/part_001 renders the value if
non-empty, else the long name, else the flag character; file errors
render as file colon, the line number and a colon unless the line is 0,
a space and the identifier and a colon unless the identifier is empty,
then a space, the message and a final newline. -/
theorem c5_error_render :
    (∀ e : FlagError, FlagError.render e = e.err.message ++ " -- " ++
      (if e.value ≠ [] ∧ e.value ≠ "true".data then String.mk e.value
       else String.mk [e.flag])) ∧
    (∀ e : FlagErrorL, FlagErrorL.render e = e.err.message ++ " -- " ++
      String.mk (if e.value ≠ [] then e.value
        else if e.long ≠ [] then e.long else [e.flag])) ∧
    (∀ p : ParseError, ParseError.render p = p.file ++ ":" ++
      (if p.line = 0 then "" else toString p.line ++ ":") ++
      (if p.ident = [] then "" else " " ++ String.mk p.ident ++ ":") ++
      " " ++ p.err.message ++ "\n") := by
  refine ⟨fun e => ?_, fun e => rfl, fun p => ?_⟩
  · by_cases h : e.value ≠ [] ∧ e.value ≠ "true".data <;>
      simp [FlagError.render, h]
  · unfold ParseError.render
    by_cases hl : p.line = 0 <;> by_cases hi : p.ident = [] <;>
      simp [hl, hi]


end Conf
